import Mathlib

/-!
Verification development for the roller picker widget (`lv_roller.c`) and the
table widget (`lv_table.c`) of an embedded graphics toolkit.

The selection state of the roller and the cell grid of the table are embedded
shallowly: each C function that the properties below talk about is translated
into a Lean function over an explicit state record.  C `uint16_t` values are
modelled as `Nat`; a `% 65536` is inserted exactly at the places where the C
code stores a value that can exceed the 16-bit range into a `uint16_t` field
(or converts a signed value to `uint16_t`), so that wraparound is represented
faithfully.  Indices that the C code keeps in `uint32_t`/`int` (the table's
flat cell indices) are modelled as plain `Nat`, since the quantities involved
stay far below 2^32 for any representable table.
-/

namespace Roller

/-- Roller mode, `lv_roller_mode_t`: normal (bounded) or infinite (wraparound
by page replication). -/
inductive Mode where
  | normal
  | infinite
deriving DecidableEq, Repr

/-- Selection-relevant state of `lv_roller_t`: the mode, the effective option
count (including the replication factor in infinite mode), the committed
selected id and its "original" snapshot.  All four numeric fields are
`uint16_t` in C. -/
structure State where
  mode : Mode
  option_cnt : Nat
  sel_opt_id : Nat
  sel_opt_id_ori : Nat
deriving DecidableEq, Repr

/-- Modelled from the spec: the replication ("page") count constant
`LV_ROLLER_INF_PAGES` lives in `lv_roller.h`, which is not part of the
sources; the spec gives 5 pages as its value.  All theorems below are stated
for an arbitrary page count `inf` and only use this constant in concrete
witnesses. -/
def LV_ROLLER_INF_PAGES : Nat := 5

/-- Wraparound normalizer `inf_normalize` (selection-state part): in infinite
mode re-centers `sel_opt_id` and `sel_opt_id_ori` to the middle page.
The C code first updates `sel_opt_id` and then recomputes `sel_opt_id_ori`
from the already-updated `sel_opt_id`.  The final label repositioning is pure
geometry on the child node and does not touch this state. -/
def inf_normalize (inf : Nat) (st : State) : State :=
  if st.mode = Mode.infinite then
    let real_id_cnt := st.option_cnt / inf
    let sel := (st.sel_opt_id % real_id_cnt + (inf / 2) * real_id_cnt) % 65536
    let ori := (sel % real_id_cnt + (inf / 2) * real_id_cnt) % 65536
    { st with sel_opt_id := sel, sel_opt_id_ori := ori }
  else st

/-- Selection-state effect of `refr_position`: when animation is disabled or
the animation time is zero the wraparound normalizer runs synchronously;
otherwise an animation is scheduled and the state is untouched (the
normalizer then runs from the animation-ready callback, modelled as a
separate operation). -/
def refr_position (inf : Nat) (st : State) (anim_en : Bool) (anim_time : Nat) : State :=
  if anim_en = false ∨ anim_time = 0 then inf_normalize inf st else st

/-- In-function block of `lv_roller_set_selected` that reinterprets the raw
id in infinite mode: the caller's page is `sel_opt_id / LV_ROLLER_INF_PAGES`;
for a nonzero page the page offset is subtracted from the raw id in signed
arithmetic and the page offset is added back, the result being converted to
`uint16_t` (hence the `% 65536` and `toNat`).  In normal mode the id passes
through untouched. -/
def set_selected_raw (inf : Nat) (st : State) (sel_opt : Nat) : Nat :=
  if st.mode = Mode.infinite then
    let sel_opt_signed : Int := (sel_opt : Int)
    let page : Nat := st.sel_opt_id / inf
    let sel_opt_signed : Int :=
      if page ≠ 0 then sel_opt_signed - (page : Int) * (inf : Int) else sel_opt_signed
    (((page : Int) * (inf : Int) + sel_opt_signed) % 65536).toNat
  else sel_opt

/-- The function `lv_roller_set_selected`: the `uint16_t` argument is reduced
mod 2^16, remapped by the infinite-mode block, clamped to
`[0, option_cnt - 1]`, stored into both `sel_opt_id` and `sel_opt_id_ori`,
and `refr_position` runs. -/
def set_selected (inf : Nat) (st : State) (sel_opt0 : Nat) (anim : Bool)
    (anim_time : Nat) : State :=
  let sel_opt : Nat := set_selected_raw inf st (sel_opt0 % 65536)
  let sel := if sel_opt < st.option_cnt then sel_opt else st.option_cnt - 1
  refr_position inf { st with sel_opt_id := sel, sel_opt_id_ori := sel } anim anim_time

/-- The function `lv_roller_get_selected`: in infinite mode reduces the stored
absolute id modulo the real (logical) option count. -/
def get_selected (inf : Nat) (st : State) : Nat :=
  if st.mode = Mode.infinite then
    let real_id_cnt := st.option_cnt / inf
    st.sel_opt_id % real_id_cnt
  else st.sel_opt_id

/-- The function `lv_roller_get_option_cnt`: in infinite mode divides the
stored count by the page count. -/
def get_option_cnt (inf : Nat) (st : State) : Nat :=
  if st.mode = Mode.infinite then st.option_cnt / inf else st.option_cnt

/-- Spec-worded variant of `get_selected` for the refinement comparison:
the spec sentence says the getter "divides the absolute stored id ... by
`INF_PAGES`" in infinite mode. -/
def get_selected_specDiv (inf : Nat) (st : State) : Nat :=
  if st.mode = Mode.infinite then st.sel_opt_id / inf else st.sel_opt_id

/-- The function `lv_roller_set_options` (selection-state part): the option
count is the number of newline characters plus one, accumulated in a
`uint16_t`; in infinite mode the initial selection is placed on the middle
page, the count is multiplied by the page count, the normalizer runs, and
finally `sel_opt_id_ori` is set from `sel_opt_id`.  The replicated label text
itself is owned by the child label node and is not part of this state. -/
def set_options (inf : Nat) (st : State) (options : List Char) (mode : Mode) : State :=
  let option_cnt := (options.count '\n' + 1) % 65536
  if mode = Mode.normal then
    { st with mode := Mode.normal, option_cnt := option_cnt,
              sel_opt_id := 0, sel_opt_id_ori := 0 }
  else
    let st1 : State :=
      { st with mode := Mode.infinite,
                sel_opt_id := ((inf / 2) * option_cnt) % 65536,
                sel_opt_id_ori := 0,
                option_cnt := (option_cnt * inf) % 65536 }
    let st2 := inf_normalize inf st1
    { st2 with sel_opt_id_ori := st2.sel_opt_id }

/-- Modelled from the spec: the key codes `LV_KEY_RIGHT/DOWN/LEFT/UP` compared
against in the `LV_SIGNAL_CONTROL` handler are defined in a header that is not
part of the sources; the spec only distinguishes "next" and "prev" directional
input, so the key argument is modelled as this three-valued type. -/
inductive ControlKey where
  | next
  | prev
  | other
deriving DecidableEq, Repr

/-- Active input-device type as observed by the signal handlers
(`lv_indev_get_type`). -/
inductive IndevType where
  | pointer
  | button
  | encoder
  | keypad
deriving DecidableEq, Repr

/-- The `LV_SIGNAL_CONTROL` branch of `lv_roller_signal`: a next/prev key
advances or retreats the selection by one within bounds via
`lv_roller_set_selected` (animated), restoring the pre-existing
`sel_opt_id_ori` snapshot afterwards. -/
def signal_control (inf : Nat) (st : State) (key : ControlKey) (anim_time : Nat) : State :=
  match key with
  | ControlKey.next =>
      if st.sel_opt_id + 1 < st.option_cnt then
        let ori_id := st.sel_opt_id_ori
        let st1 := set_selected inf st (st.sel_opt_id + 1) true anim_time
        { st1 with sel_opt_id_ori := ori_id }
      else st
  | ControlKey.prev =>
      if st.sel_opt_id > 0 then
        let ori_id := st.sel_opt_id_ori
        let st1 := set_selected inf st (st.sel_opt_id - 1) true anim_time
        { st1 with sel_opt_id_ori := ori_id }
      else st
  | ControlKey.other => st

/-- The `LV_SIGNAL_FOCUS` branch of `lv_roller_signal`: encoders in navigate
mode revert the live selection to the snapshot (animated); encoders entering
edit mode, and all other device types, snapshot the current selection. -/
def signal_focus (inf : Nat) (st : State) (indev : IndevType) (editing : Bool)
    (anim_time : Nat) : State :=
  if indev = IndevType.encoder then
    if editing = false then
      if st.sel_opt_id ≠ st.sel_opt_id_ori then
        refr_position inf { st with sel_opt_id := st.sel_opt_id_ori } true anim_time
      else st
    else { st with sel_opt_id_ori := st.sel_opt_id }
  else { st with sel_opt_id_ori := st.sel_opt_id }

/-- The `LV_SIGNAL_DEFOCUS` branch of `lv_roller_signal`: unconditionally
revert the live selection to the snapshot when they differ. -/
def signal_defocus (inf : Nat) (st : State) (anim_time : Nat) : State :=
  if st.sel_opt_id ≠ st.sel_opt_id_ori then
    refr_position inf { st with sel_opt_id := st.sel_opt_id_ori } true anim_time
  else st

/-- The function `release_handler` (selection-state part).  For encoder and
keypad devices the snapshot is committed.  For pointer and button devices a
new option is computed: a tap resolves the hit-tested line (`tap_opt`, the
newline count delivered by the text collaborator), a drag release resolves
the predicted settle line (`drag_id`, the geometric quotient delivered by the
input collaborator) clamped to `[0, option_cnt - 1]`; the result is fed to
`lv_roller_set_selected` with animation on.  The value-changed event emission
has no effect on this state. -/
def release_handler (inf : Nat) (st : State) (indev : IndevType) (moved : Bool)
    (tap_opt : Nat) (drag_id : Int) (anim_time : Nat) : State :=
  let st :=
    if indev = IndevType.encoder ∨ indev = IndevType.keypad then
      { st with sel_opt_id_ori := st.sel_opt_id }
    else st
  if indev = IndevType.pointer ∨ indev = IndevType.button then
    let new_opt : Int :=
      if moved = false then (tap_opt : Int)
      else
        let id : Int := drag_id
        let id := if id < 0 then 0 else id
        let id := if id ≥ (st.option_cnt : Int) then (st.option_cnt : Int) - 1 else id
        id
    if new_opt ≥ 0 then set_selected inf st new_opt.toNat true anim_time else st
  else st

/-- Public operations on the roller selection state, as delivered by the host
event loop: an external `set_selected` call, a directional control key, focus
gain/loss, a pointer release, and the wraparound normalization that fires
when a scroll animation completes (`scroll_anim_ready_cb`). -/
inductive Op where
  | setSelected (id : Nat) (anim : Bool) (anim_time : Nat)
  | control (key : ControlKey) (anim_time : Nat)
  | focus (indev : IndevType) (editing : Bool) (anim_time : Nat)
  | defocus (anim_time : Nat)
  | release (indev : IndevType) (moved : Bool) (tap_opt : Nat) (drag_id : Int)
      (anim_time : Nat)
  | animReady
deriving Repr

/-- Dispatch of a public operation to its handler. -/
def applyOp (inf : Nat) (op : Op) (st : State) : State :=
  match op with
  | Op.setSelected id anim anim_time => set_selected inf st id anim anim_time
  | Op.control key anim_time => signal_control inf st key anim_time
  | Op.focus indev editing anim_time => signal_focus inf st indev editing anim_time
  | Op.defocus anim_time => signal_defocus inf st anim_time
  | Op.release indev moved tap_opt drag_id anim_time =>
      release_handler inf st indev moved tap_opt drag_id anim_time
  | Op.animReady => inf_normalize inf st

/-- Selection-state invariant established by `set_options`: the option count
is a positive `uint16_t`, both the committed id and the snapshot are strictly
below it, and in infinite mode the count is an exact multiple of the page
count. -/
def Inv (inf : Nat) (st : State) : Prop :=
  1 ≤ st.option_cnt ∧ st.option_cnt < 65536 ∧
    st.sel_opt_id < st.option_cnt ∧ st.sel_opt_id_ori < st.option_cnt ∧
    (st.mode = Mode.infinite → inf ∣ st.option_cnt)

instance (inf : Nat) (st : State) : Decidable (Inv inf st) := by
  unfold Inv; infer_instance

/-- First loop of `lv_roller_get_selected_str`: skip characters until the
running newline count reaches the selected line (or the text ends); returns
the number of characters consumed, i.e. the final value of `i`. -/
def sel_line_start (sel : Nat) : List Char → Nat → Nat
  | [], _ => 0
  | c :: rest, line =>
      if line = sel then 0
      else 1 + sel_line_start sel rest (if c = '\n' then line + 1 else line)

/-- Second loop of `lv_roller_get_selected_str`: copy characters of the
current line into the destination, stopping at the line's end or, when
`buf_size` is nonzero, as soon as the write index would reach
`buf_size - 1`; returns the list of copied characters (the final write index
`c` is its length). -/
def copy_line (buf_size : Nat) : List Char → Nat → List Char
  | [], _ => []
  | ch :: rest, c =>
      if ch = '\n' then []
      else if buf_size ≠ 0 ∧ c ≥ buf_size - 1 then []
      else ch :: copy_line buf_size rest (c + 1)

/-- The function `lv_roller_get_selected_str`: locate the selected line in the
joined option text, copy it (possibly truncated) and return the copied bytes
together with the index at which the terminating null byte is written. -/
def get_selected_str (opt_txt : List Char) (sel : Nat) (buf_size : Nat) :
    List Char × Nat :=
  let i := sel_line_start sel opt_txt 0
  let copied := copy_line buf_size (opt_txt.drop i) 0
  (copied, copied.length)

/-- Concrete infinite-mode roller state (2 logical options replicated over 5
pages, absolute id 3) used for concrete evaluations. -/
def exInf3 : State :=
  { mode := Mode.infinite, option_cnt := 10, sel_opt_id := 3, sel_opt_id_ori := 3 }

/-- Concrete infinite-mode roller state on the middle page (absolute id 4)
used for concrete evaluations. -/
def exInf4 : State :=
  { mode := Mode.infinite, option_cnt := 10, sel_opt_id := 4, sel_opt_id_ori := 4 }

end Roller

namespace Table

/-- The packed per-cell format bits of `lv_table_cell_format_t`: right-merge
and crop.  The bit-level packing into the leading byte of the cell buffer is
a storage detail with no observable effect, so the two flags are modelled as
booleans. -/
structure CellFormat where
  right_merge : Bool
  crop : Bool
deriving DecidableEq, Repr

/-- One allocated cell buffer: the format byte followed by the
null-terminated text. -/
structure Cell where
  fmt : CellFormat
  txt : String
deriving DecidableEq, Repr

/-- The state of `lv_table_t`: row/column counts, per-column widths,
per-row computed heights, and the row-major grid of optionally-allocated
cell buffers (`cell_data[row * col_cnt + col]`). -/
structure State where
  row_cnt : Nat
  col_cnt : Nat
  col_w : List Int
  row_h : List Int
  cell_data : List (Option Cell)
deriving DecidableEq, Repr

/-- Ambient style and collaborator context used by the size computation:
`measure_h txt w` is the height reported by `lv_txt_get_size` for `txt`
wrapped at width `w`; `line_h` is `lv_font_get_line_height(font)`; the four
paddings are the `LV_PART_ITEMS` cell paddings. -/
structure Env where
  measure_h : String → Int → Int
  line_h : Int
  cell_left : Int
  cell_right : Int
  cell_top : Int
  cell_bottom : Int

/-- Read of `table->cell_data[i]` (in-bounds under the well-formedness
invariant; an out-of-bounds read defaults to an unallocated cell). -/
def cell_at (t : State) (i : Nat) : Option Cell :=
  t.cell_data.getD i none

/-- Read of `table->col_w[i]`. -/
def col_w_at (t : State) (i : Nat) : Int :=
  t.col_w.getD i 0

/-- Modelled from the spec: `LV_DPI_DEF`, the fixed default width constant
for new columns, is defined in a header that is not part of the sources; no
claim depends on its value. -/
def LV_DPI_DEF : Int := 130

/-- Realloc of a backing array to `n` elements: the old prefix is preserved;
a grown region is modelled as filled with `pad` (the callers either
explicitly initialize the grown region or overwrite the array entirely). -/
def realloc_list (l : List α) (n : Nat) (pad : α) : List α :=
  l.take n ++ List.replicate (n - l.length) pad

/-- Row-by-row construction of a fresh `cell_data` buffer, in the order the C
copy loop runs (row 0 first): `build_rows f n = f 0 ++ f 1 ++ ... ++ f (n-1)`. -/
def build_rows (f : Nat → List α) : Nat → List α
  | 0 => []
  | n + 1 => build_rows f n ++ f n

/-- Inner merge-chain loop shared by `get_row_height` (and the draw pass):
starting from chain offset `col_merge`, while `col_merge + col < col_cnt - 1`
and the cell at `cell + col_merge` is allocated with its right-merge bit set,
accumulate the following column's width into `txt_w` and advance.  Returns
the final `(col_merge, txt_w)`.  The fuel argument is initialized to
`col_cnt`, which bounds the iteration count, so exhaustion never cuts the
loop short. -/
def merge_chain (t : State) (cell col : Nat) : Nat → Nat → Int → Nat × Int
  | 0, col_merge, txt_w => (col_merge, txt_w)
  | fuel + 1, col_merge, txt_w =>
      if col_merge + col + 1 < t.col_cnt then
        match cell_at t (cell + col_merge) with
        | some cd =>
            if cd.fmt.right_merge then
              merge_chain t cell col fuel (col_merge + 1)
                (txt_w + col_w_at t (col + col_merge + 1))
            else (col_merge, txt_w)
        | none => (col_merge, txt_w)
      else (col_merge, txt_w)

/-- Outer loop of `get_row_height` over the cells of one row: unallocated
cells are passed over; an allocated cropped cell contributes one line height
plus vertical padding; an allocated non-cropped cell contributes the measured
text height at its merge-chain width, and only in that branch does the loop
additionally advance `cell`/`col` by the chain length.  The fuel is
initialized to `col_cnt`, which bounds the iteration count since every
iteration advances `cell` by at least one. -/
def row_height_loop (env : Env) (t : State) (row_start : Nat) :
    Nat → Nat → Nat → Int → Int
  | 0, _, _, h_max => h_max
  | fuel + 1, cell, col, h_max =>
      if cell < row_start + t.col_cnt then
        match cell_at t cell with
        | none => row_height_loop env t row_start fuel (cell + 1) (col + 1) h_max
        | some cd =>
            let txt_w := col_w_at t col
            let res := merge_chain t cell col t.col_cnt 0 txt_w
            let col_merge := res.1
            let txt_w := res.2
            if cd.fmt.crop then
              row_height_loop env t row_start fuel (cell + 1) (col + 1)
                (max (env.line_h + env.cell_top + env.cell_bottom) h_max)
            else
              let txt_w := txt_w - (env.cell_left + env.cell_right)
              let h := env.measure_h cd.txt txt_w
              row_height_loop env t row_start fuel
                (cell + col_merge + 1) (col + col_merge + 1)
                (max (h + env.cell_top + env.cell_bottom) h_max)
      else h_max

/-- The function `get_row_height`: maximum cell contribution over one row,
floored by one line height plus vertical cell padding. -/
def get_row_height (env : Env) (t : State) (row_id : Nat) : Int :=
  let row_start := row_id * t.col_cnt
  row_height_loop env t row_start t.col_cnt row_start 0
    (env.line_h + env.cell_top + env.cell_bottom)

/-- Variant of the outer loop following the spec's words for the refinement
comparison: "the merge chain is consumed as a single step" for every chain
head, cropped or not, so here the cropped branch also advances by the chain
length. -/
def row_height_loop_specSkipAll (env : Env) (t : State) (row_start : Nat) :
    Nat → Nat → Nat → Int → Int
  | 0, _, _, h_max => h_max
  | fuel + 1, cell, col, h_max =>
      if cell < row_start + t.col_cnt then
        match cell_at t cell with
        | none => row_height_loop_specSkipAll env t row_start fuel (cell + 1) (col + 1) h_max
        | some cd =>
            let txt_w := col_w_at t col
            let res := merge_chain t cell col t.col_cnt 0 txt_w
            let col_merge := res.1
            let txt_w := res.2
            if cd.fmt.crop then
              row_height_loop_specSkipAll env t row_start fuel
                (cell + col_merge + 1) (col + col_merge + 1)
                (max (env.line_h + env.cell_top + env.cell_bottom) h_max)
            else
              let txt_w := txt_w - (env.cell_left + env.cell_right)
              let h := env.measure_h cd.txt txt_w
              row_height_loop_specSkipAll env t row_start fuel
                (cell + col_merge + 1) (col + col_merge + 1)
                (max (h + env.cell_top + env.cell_bottom) h_max)
      else h_max

/-- Spec-worded variant of `get_row_height` built on the skip-always loop. -/
def get_row_height_specSkipAll (env : Env) (t : State) (row_id : Nat) : Int :=
  let row_start := row_id * t.col_cnt
  row_height_loop_specSkipAll env t row_start t.col_cnt row_start 0
    (env.line_h + env.cell_top + env.cell_bottom)

/-- The function `refr_size`: recompute every row height (the loop writes
`row_h[i] := get_row_height(i)` for each row; `get_row_height` does not read
`row_h`, so the sequential writes are an independent map).  The final
self-size notification is geometry on the widget node and not part of this
state. -/
def refr_size (env : Env) (t : State) : State :=
  { t with row_h := (List.range t.row_cnt).map (get_row_height env t) }

/-- The function `lv_table_set_row_cnt`: store the new count, realloc
`row_h` and `cell_data` (preserving the old prefix), explicitly zero the
grown cell region when the count grew, then recompute sizes. -/
def set_row_cnt (env : Env) (t : State) (row_cnt : Nat) : State :=
  let old_row_cnt := t.row_cnt
  let t1 : State := { t with row_cnt := row_cnt }
  let row_h := realloc_list t.row_h row_cnt 0
  let cell_data := realloc_list t.cell_data (row_cnt * t1.col_cnt) none
  let cell_data :=
    if old_row_cnt < row_cnt then
      let old_cell_cnt := old_row_cnt * t1.col_cnt
      let new_cell_cnt := t1.col_cnt * row_cnt
      cell_data.take old_cell_cnt ++
        List.replicate (new_cell_cnt - old_cell_cnt) none
    else cell_data
  refr_size env { t1 with row_h := row_h, cell_data := cell_data }

/-- The function `lv_table_set_col_cnt`: store the new count, realloc `col_w`
and default-initialize any new columns, then build a fresh zeroed cell buffer
and copy, for every row, the `min(old_col_cnt, col_cnt)` leading cells to
their new row-major position; finally recompute sizes. -/
def set_col_cnt (env : Env) (t : State) (col_cnt : Nat) : State :=
  let old_col_cnt := t.col_cnt
  let col_w := realloc_list t.col_w col_cnt 0
  let col_w :=
    if old_col_cnt < col_cnt then
      col_w.take old_col_cnt ++ List.replicate (col_cnt - old_col_cnt) LV_DPI_DEF
    else col_w
  let min_col_cnt := min old_col_cnt col_cnt
  let new_cell_data :=
    build_rows
      (fun row =>
        (t.cell_data.drop (row * old_col_cnt)).take min_col_cnt ++
          List.replicate (col_cnt - min_col_cnt) none)
      t.row_cnt
  refr_size env
    { t with col_cnt := col_cnt, col_w := col_w, cell_data := new_cell_data }

/-- The function `lv_table_set_cell_value`: auto-expand the column count and
then the row count when the target is out of bounds, preserve the existing
format byte (or initialize it to zero), store the new text, and recompute
sizes. -/
def set_cell_value (env : Env) (t : State) (row col : Nat) (txt : String) : State :=
  let t := if t.col_cnt ≤ col then set_col_cnt env t (col + 1) else t
  let t := if t.row_cnt ≤ row then set_row_cnt env t (row + 1) else t
  let cell := row * t.col_cnt + col
  let fmt :=
    match cell_at t cell with
    | some cd => cd.fmt
    | none => { right_merge := false, crop := false : CellFormat }
  refr_size env
    { t with cell_data := t.cell_data.set cell (some { fmt := fmt, txt := txt }) }

/-- The function `lv_table_set_cell_value_fmt`, parametrized by the text that
`lv_vsnprintf` produces from the format string and arguments: when the column
is out of range it warns and returns with the table unchanged; otherwise it
auto-expands only the row count, preserves the format byte, stores the
formatted text and recomputes sizes. -/
def set_cell_value_fmt (env : Env) (t : State) (row col : Nat) (txt : String) : State :=
  if t.col_cnt ≤ col then t
  else
    let t := if t.row_cnt ≤ row then set_row_cnt env t (row + 1) else t
    let cell := row * t.col_cnt + col
    let fmt :=
      match cell_at t cell with
      | some cd => cd.fmt
      | none => { right_merge := false, crop := false : CellFormat }
    refr_size env
      { t with cell_data := t.cell_data.set cell (some { fmt := fmt, txt := txt }) }

/-- The function `lv_table_set_cell_crop`: auto-expand, lazily allocate an
empty-text cell with a zero format byte when none exists, then set the crop
bit.  No size recomputation is triggered. -/
def set_cell_crop (env : Env) (t : State) (row col : Nat) (crop : Bool) : State :=
  let t := if t.col_cnt ≤ col then set_col_cnt env t (col + 1) else t
  let t := if t.row_cnt ≤ row then set_row_cnt env t (row + 1) else t
  let cell := row * t.col_cnt + col
  let cd :=
    match cell_at t cell with
    | none => { fmt := { right_merge := false, crop := false }, txt := "" : Cell }
    | some cd => cd
  let cd := { cd with fmt := { cd.fmt with crop := crop } }
  { t with cell_data := t.cell_data.set cell (some cd) }

/-- The function `lv_table_set_cell_merge_right`: auto-expand, lazily
allocate an empty-text cell with a zero format byte when none exists, set the
right-merge bit, and recompute sizes. -/
def set_cell_merge_right (env : Env) (t : State) (row col : Nat) (en : Bool) : State :=
  let t := if t.col_cnt ≤ col then set_col_cnt env t (col + 1) else t
  let t := if t.row_cnt ≤ row then set_row_cnt env t (row + 1) else t
  let cell := row * t.col_cnt + col
  let cd :=
    match cell_at t cell with
    | none => { fmt := { right_merge := false, crop := false }, txt := "" : Cell }
    | some cd => cd
  let cd := { cd with fmt := { cd.fmt with right_merge := en } }
  refr_size env { t with cell_data := t.cell_data.set cell (some cd) }

/-- The function `lv_table_get_cell_value`: out-of-range indices and
unallocated cells yield the empty string. -/
def get_cell_value (t : State) (row col : Nat) : String :=
  if t.row_cnt ≤ row ∨ t.col_cnt ≤ col then ""
  else
    match cell_at t (row * t.col_cnt + col) with
    | none => ""
    | some cd => cd.txt

/-- The function `lv_table_get_cell_crop`: out-of-range indices and
unallocated cells yield `false`. -/
def get_cell_crop (t : State) (row col : Nat) : Bool :=
  if t.row_cnt ≤ row ∨ t.col_cnt ≤ col then false
  else
    match cell_at t (row * t.col_cnt + col) with
    | none => false
    | some cd => cd.fmt.crop

/-- The function `lv_table_get_cell_merge_right`: out-of-range indices and
unallocated cells yield `false`. -/
def get_cell_merge_right (t : State) (row col : Nat) : Bool :=
  if t.row_cnt ≤ row ∨ t.col_cnt ≤ col then false
  else
    match cell_at t (row * t.col_cnt + col) with
    | none => false
    | some cd => cd.fmt.right_merge

/-- The function `lv_table_get_col_width`: 0 for an out-of-range column. -/
def get_col_width (t : State) (col_id : Nat) : Int :=
  if t.col_cnt ≤ col_id then 0 else col_w_at t col_id

/-- Well-formedness of the backing arrays: the lengths match the stored
counts (maintained by every setter; established by the constructor). -/
def WF (t : State) : Prop :=
  t.col_w.length = t.col_cnt ∧ t.row_h.length = t.row_cnt ∧
    t.cell_data.length = t.row_cnt * t.col_cnt

instance (t : State) : Decidable (WF t) := by
  unfold WF; infer_instance

/-- Concrete style/measurement context used for concrete evaluations: the
text "T" measures 100 pixels high, everything else 7; line height 10; no cell
padding. -/
def exEnv : Env :=
  { measure_h := fun s _ => if s = "T" then 100 else 7, line_h := 10,
    cell_left := 0, cell_right := 0, cell_top := 0, cell_bottom := 0 }

/-- Concrete cell that is both cropped and merged right. -/
def exCellCropMerge : Cell :=
  { fmt := { right_merge := true, crop := true }, txt := "" }

/-- Concrete non-cropped, non-merged cell holding the tall text "T". -/
def exCellT : Cell :=
  { fmt := { right_merge := false, crop := false }, txt := "T" }

/-- Concrete non-cropped, non-merged cell holding the text "a". -/
def exCellA : Cell :=
  { fmt := { right_merge := false, crop := false }, txt := "a" }

/-- Concrete 1-row, 2-column table whose first cell is cropped and merged
right and whose second cell holds tall text. -/
def exTableCropMerge : State :=
  { row_cnt := 1, col_cnt := 2, col_w := [50, 60], row_h := [10],
    cell_data := [some exCellCropMerge, some exCellT] }

/-- Concrete empty 1-by-1 table. -/
def exTable1x1 : State :=
  { row_cnt := 1, col_cnt := 1, col_w := [50], row_h := [10],
    cell_data := [none] }

/-- Concrete 2-by-2 table with two set cells. -/
def exTable2x2 : State :=
  { row_cnt := 2, col_cnt := 2, col_w := [50, 60], row_h := [10, 10],
    cell_data := [some exCellA, none, none, some exCellT] }

/-- Concrete 1-row, 2-column table with tall text in the first cell. -/
def exTableT : State :=
  { row_cnt := 1, col_cnt := 2, col_w := [50, 60], row_h := [10],
    cell_data := [some exCellT, none] }

end Table

namespace Roller

theorem inf_normalize_mode (inf : Nat) (st : State) :
    (inf_normalize inf st).mode = st.mode := by
  unfold inf_normalize; split <;> rfl

theorem inf_normalize_option_cnt (inf : Nat) (st : State) :
    (inf_normalize inf st).option_cnt = st.option_cnt := by
  unfold inf_normalize; split <;> rfl

theorem refr_position_mode (inf : Nat) (st : State) (a : Bool) (t : Nat) :
    (refr_position inf st a t).mode = st.mode := by
  unfold refr_position; split
  · exact inf_normalize_mode inf st
  · rfl

theorem refr_position_option_cnt (inf : Nat) (st : State) (a : Bool) (t : Nat) :
    (refr_position inf st a t).option_cnt = st.option_cnt := by
  unfold refr_position; split
  · exact inf_normalize_option_cnt inf st
  · rfl

theorem set_selected_mode (inf : Nat) (st : State) (id : Nat) (a : Bool) (t : Nat) :
    (set_selected inf st id a t).mode = st.mode := by
  unfold set_selected
  exact refr_position_mode inf _ a t

theorem set_selected_option_cnt (inf : Nat) (st : State) (id : Nat) (a : Bool) (t : Nat) :
    (set_selected inf st id a t).option_cnt = st.option_cnt := by
  unfold set_selected
  exact refr_position_option_cnt inf _ a t

/-- In infinite mode the page-relative remapping block of
`lv_roller_set_selected` is the identity on the 16-bit range: subtracting and
re-adding the page offset cancel. -/
theorem set_selected_raw_infinite (inf : Nat) (st : State) (id : Nat)
    (hm : st.mode = Mode.infinite) :
    set_selected_raw inf st id = id % 65536 := by
  unfold set_selected_raw
  rw [hm]
  simp only [reduceIte]
  split
  · rename_i hp
    have hr :
        ((st.sel_opt_id / inf : Nat) : Int) * (inf : Int) +
            ((id : Int) - ((st.sel_opt_id / inf : Nat) : Int) * (inf : Int)) =
          (id : Int) := by ring
    rw [hr]
    omega
  · rename_i hp
    have h0 : st.sel_opt_id / inf = 0 := by
      by_contra hne
      exact hp hne
    rw [h0]
    push_cast
    ring_nf
    omega

/-- The re-centered absolute id produced by the wraparound normalizer stays
strictly below the (replicated) option count. -/
theorem norm_middle_lt {inf cnt s : Nat} (hinf : 1 ≤ inf) (hcnt : 1 ≤ cnt)
    (hdvd : inf ∣ cnt) : s % (cnt / inf) + inf / 2 * (cnt / inf) < cnt := by
  obtain ⟨r, hr⟩ := hdvd
  subst hr
  have hrpos : 1 ≤ r := by
    rcases Nat.eq_zero_or_pos r with h0 | h1
    · subst h0; simp at hcnt
    · exact h1
  have hq : inf * r / inf = r := Nat.mul_div_cancel_left r (by omega)
  rw [hq]
  have h1 : s % r < r := Nat.mod_lt _ (by omega)
  have h2 : inf / 2 ≤ inf - 1 := by omega
  have h3 : inf / 2 * r ≤ (inf - 1) * r := Nat.mul_le_mul_right r h2
  have h4 : (inf - 1) * r = inf * r - 1 * r := Nat.sub_mul inf 1 r
  have h5 : r ≤ inf * r := Nat.le_mul_of_pos_left r (by omega)
  omega

/-- In infinite mode, under the state invariant's arithmetic facts, the
normalizer's effect is exactly the re-centering formula, applied to both the
committed id and the snapshot (the snapshot re-normalizes to the same
value). -/
theorem inf_normalize_eq (inf : Nat) (st : State) (hm : st.mode = Mode.infinite)
    (hinf : 1 ≤ inf) (hcnt : 1 ≤ st.option_cnt) (hmax : st.option_cnt < 65536)
    (hdvd : inf ∣ st.option_cnt) :
    inf_normalize inf st =
      { st with
        sel_opt_id :=
          st.sel_opt_id % (st.option_cnt / inf) + inf / 2 * (st.option_cnt / inf),
        sel_opt_id_ori :=
          st.sel_opt_id % (st.option_cnt / inf) + inf / 2 * (st.option_cnt / inf) } := by
  have hlt := norm_middle_lt (s := st.sel_opt_id) hinf hcnt hdvd
  have hstrip :
      (st.sel_opt_id % (st.option_cnt / inf) + inf / 2 * (st.option_cnt / inf)) % 65536 =
        st.sel_opt_id % (st.option_cnt / inf) + inf / 2 * (st.option_cnt / inf) :=
    Nat.mod_eq_of_lt (by omega)
  have hrpos : 0 < st.option_cnt / inf :=
    Nat.div_pos (Nat.le_of_dvd (by omega) hdvd) (by omega)
  have hmodr : st.sel_opt_id % (st.option_cnt / inf) < st.option_cnt / inf :=
    Nat.mod_lt _ hrpos
  unfold inf_normalize
  rw [if_pos hm]
  simp only [hstrip]
  have hori :
      (st.sel_opt_id % (st.option_cnt / inf) + inf / 2 * (st.option_cnt / inf)) %
          (st.option_cnt / inf) =
        st.sel_opt_id % (st.option_cnt / inf) := by
    rw [Nat.add_mul_mod_self_right]
    exact Nat.mod_eq_of_lt hmodr
  rw [hori, hstrip]

/-- In infinite mode a `uint16_t`-ranged raw id passes through
`lv_roller_set_selected`'s remapping unchanged, so the call reduces to
clamping the raw id and refreshing. -/
theorem set_selected_infinite_eq (inf : Nat) (st : State) (id : Nat)
    (anim : Bool) (anim_time : Nat) (hm : st.mode = Mode.infinite)
    (hid : id < 65536) :
    set_selected inf st id anim anim_time =
      refr_position inf
        { st with
          sel_opt_id := if id < st.option_cnt then id else st.option_cnt - 1,
          sel_opt_id_ori := if id < st.option_cnt then id else st.option_cnt - 1 }
        anim anim_time := by
  have hmod : id % 65536 = id := Nat.mod_eq_of_lt hid
  unfold set_selected
  rw [set_selected_raw_infinite inf st _ hm, hmod, hmod]

theorem inf_normalize_inv (inf : Nat) (st : State) (hinf : 1 ≤ inf)
    (h : Inv inf st) : Inv inf (inf_normalize inf st) := by
  obtain ⟨h1, h2, h3, h4, h5⟩ := h
  unfold inf_normalize
  split
  · rename_i hm
    have hdvd := h5 hm
    have hsel := norm_middle_lt (s := st.sel_opt_id) hinf h1 hdvd
    have hsel' :
        (st.sel_opt_id % (st.option_cnt / inf) + inf / 2 * (st.option_cnt / inf)) % 65536 =
          st.sel_opt_id % (st.option_cnt / inf) + inf / 2 * (st.option_cnt / inf) :=
      Nat.mod_eq_of_lt (by omega)
    have hori := norm_middle_lt
      (s := (st.sel_opt_id % (st.option_cnt / inf) + inf / 2 * (st.option_cnt / inf)) % 65536)
      hinf h1 hdvd
    refine ⟨h1, h2, ?_, ?_, fun _ => hdvd⟩
    · simpa [hsel'] using hsel
    · exact Nat.lt_of_le_of_lt (Nat.le_trans (Nat.mod_le _ _) (Nat.le_refl _))
        (by simpa using hori)
  · exact ⟨h1, h2, h3, h4, h5⟩

theorem refr_position_inv (inf : Nat) (st : State) (a : Bool) (t : Nat)
    (hinf : 1 ≤ inf) (h : Inv inf st) : Inv inf (refr_position inf st a t) := by
  unfold refr_position
  split
  · exact inf_normalize_inv inf st hinf h
  · exact h

theorem set_selected_inv (inf : Nat) (st : State) (id : Nat) (a : Bool) (t : Nat)
    (hinf : 1 ≤ inf) (h : Inv inf st) : Inv inf (set_selected inf st id a t) := by
  obtain ⟨h1, h2, h3, h4, h5⟩ := h
  unfold set_selected
  refine refr_position_inv inf _ a t hinf ⟨h1, h2, ?_, ?_, h5⟩ <;>
    · dsimp only
      split <;> omega

theorem signal_control_inv (inf : Nat) (st : State) (key : ControlKey) (t : Nat)
    (hinf : 1 ≤ inf) (h : Inv inf st) : Inv inf (signal_control inf st key t) := by
  have hor := h
  obtain ⟨h1, h2, h3, h4, h5⟩ := hor
  cases key with
  | next =>
      simp only [signal_control]
      split
      · obtain ⟨g1, g2, g3, g4, g5⟩ :=
          set_selected_inv inf st (st.sel_opt_id + 1) true t hinf h
        have hcnt := set_selected_option_cnt inf st (st.sel_opt_id + 1) true t
        exact ⟨g1, g2, g3, by rw [hcnt]; exact h4, g5⟩
      · exact h
  | prev =>
      simp only [signal_control]
      split
      · obtain ⟨g1, g2, g3, g4, g5⟩ :=
          set_selected_inv inf st (st.sel_opt_id - 1) true t hinf h
        have hcnt := set_selected_option_cnt inf st (st.sel_opt_id - 1) true t
        exact ⟨g1, g2, g3, by rw [hcnt]; exact h4, g5⟩
      · exact h
  | other =>
      simp only [signal_control]
      exact h

theorem signal_focus_inv (inf : Nat) (st : State) (indev : IndevType)
    (editing : Bool) (t : Nat) (hinf : 1 ≤ inf) (h : Inv inf st) :
    Inv inf (signal_focus inf st indev editing t) := by
  obtain ⟨h1, h2, h3, h4, h5⟩ := h
  unfold signal_focus
  split
  · split
    · split
      · exact refr_position_inv inf _ true t hinf ⟨h1, h2, h4, h4, h5⟩
      · exact ⟨h1, h2, h3, h4, h5⟩
    · exact ⟨h1, h2, h3, h3, h5⟩
  · exact ⟨h1, h2, h3, h3, h5⟩

theorem signal_defocus_inv (inf : Nat) (st : State) (t : Nat)
    (hinf : 1 ≤ inf) (h : Inv inf st) : Inv inf (signal_defocus inf st t) := by
  obtain ⟨h1, h2, h3, h4, h5⟩ := h
  unfold signal_defocus
  split
  · exact refr_position_inv inf _ true t hinf ⟨h1, h2, h4, h4, h5⟩
  · exact ⟨h1, h2, h3, h4, h5⟩

theorem release_handler_inv (inf : Nat) (st : State) (indev : IndevType)
    (moved : Bool) (tap_opt : Nat) (drag_id : Int) (t : Nat)
    (hinf : 1 ≤ inf) (h : Inv inf st) :
    Inv inf (release_handler inf st indev moved tap_opt drag_id t) := by
  obtain ⟨h1, h2, h3, h4, h5⟩ := h
  unfold release_handler
  dsimp only
  repeat' split
  all_goals
    first
      | exact set_selected_inv inf _ _ true t hinf ⟨h1, h2, h3, h3, h5⟩
      | exact set_selected_inv inf _ _ true t hinf ⟨h1, h2, h3, h4, h5⟩
      | exact ⟨h1, h2, h3, h3, h5⟩
      | exact ⟨h1, h2, h3, h4, h5⟩

/-- C1: in infinite mode `lv_roller_set_selected` interprets the raw id
relative to the currently displayed page (computing the page as
`sel_opt_id / LV_ROLLER_INF_PAGES`, offsetting the raw id into that page's
absolute index space, and clamping only afterwards), and consequently for
every id below the logical option count the selected logical option after
the call equals the id. -/
theorem roller_set_selected_infinite_page_relative
    (inf : Nat) (st : State) (id : Nat) (anim : Bool) (anim_time : Nat)
    (hm : st.mode = Mode.infinite) (hdvd : inf ∣ st.option_cnt)
    (hmax : st.option_cnt < 65536) (hid : id < st.option_cnt / inf) :
    get_selected inf (set_selected inf st id anim anim_time) = id := by
  have hinf : 1 ≤ inf := by
    rcases Nat.eq_zero_or_pos inf with h0 | h1
    · subst h0
      rw [Nat.div_zero] at hid
      omega
    · exact h1
  have hrle : st.option_cnt / inf ≤ st.option_cnt := Nat.div_le_self _ _
  have hidcnt : id < st.option_cnt := lt_of_lt_of_le hid hrle
  have hid65 : id < 65536 := lt_trans hidcnt hmax
  have hcnt1 : 1 ≤ st.option_cnt := by omega
  have hmodid : id % (st.option_cnt / inf) = id := Nat.mod_eq_of_lt hid
  rw [set_selected_infinite_eq inf st id anim anim_time hm hid65, if_pos hidcnt]
  unfold refr_position
  split
  · rw [inf_normalize_eq inf
        { st with sel_opt_id := id, sel_opt_id_ori := id } hm hinf hcnt1 hmax hdvd]
    unfold get_selected
    dsimp only
    rw [hm]
    simp only [reduceIte]
    rw [Nat.add_mul_mod_self_right, hmodid, hmodid]
  · unfold get_selected
    dsimp only
    rw [hm]
    simp only [reduceIte]
    exact hmodid

theorem roller_set_selected_infinite_page_relative_witness :
    get_selected 5 (set_selected 5 exInf4 1 false 0) = 1 :=
  roller_set_selected_infinite_page_relative 5 exInf4 1 false 0 rfl
    (by decide) (by decide) (by decide)

/-- C2 counterexample: `lv_roller_get_selected` does not return
`sel_opt_id / LV_ROLLER_INF_PAGES`.  At absolute id 3 with 2 logical options
replicated over 5 pages the code returns `3 % 2 = 1` while the claimed
division returns `3 / 5 = 0`. -/
theorem roller_get_selected_mod_not_div :
    get_selected 5 exInf3 = 1 ∧ get_selected_specDiv 5 exInf3 = 0 := by
  decide

/-- C2 amended: in infinite mode `lv_roller_get_selected` returns the stored
absolute id reduced modulo the logical option count
(`option_cnt / LV_ROLLER_INF_PAGES`), not divided by `LV_ROLLER_INF_PAGES`;
`lv_roller_get_option_cnt` returns `option_cnt / LV_ROLLER_INF_PAGES`; both
getters therefore yield logical, non-replicated values (the selected id is
strictly below the logical count). -/
theorem roller_getters_logical (inf : Nat) (st : State)
    (hm : st.mode = Mode.infinite) (hinf : 0 < inf)
    (hdvd : inf ∣ st.option_cnt) (hcnt : 1 ≤ st.option_cnt) :
    get_selected inf st = st.sel_opt_id % (st.option_cnt / inf) ∧
      get_option_cnt inf st = st.option_cnt / inf ∧
      get_selected inf st < st.option_cnt / inf := by
  have hrpos : 0 < st.option_cnt / inf :=
    Nat.div_pos (Nat.le_of_dvd hcnt hdvd) hinf
  unfold get_selected get_option_cnt
  rw [hm]
  simp only [reduceIte]
  exact ⟨trivial, trivial, Nat.mod_lt _ hrpos⟩

theorem roller_getters_logical_witness :
    get_selected 5 exInf3 = exInf3.sel_opt_id % (exInf3.option_cnt / 5) ∧
      get_option_cnt 5 exInf3 = exInf3.option_cnt / 5 ∧
      get_selected 5 exInf3 < exInf3.option_cnt / 5 :=
  roller_getters_logical 5 exInf3 rfl (by decide) (by decide) (by decide)

/-- C4: once `lv_roller_set_options` has established the selection invariant
(positive 16-bit option count, committed id and snapshot in range, count a
multiple of the page count in infinite mode), every public operation —
`lv_roller_set_selected`, directional control, focus/defocus revert, release
handling, and the wraparound normalization — preserves it; in particular
repeated `set_selected` calls keep the absolute `sel_opt_id` inside
`[0, option_cnt)`. -/
theorem roller_ops_preserve_selection_invariant (inf : Nat) (op : Op)
    (st : State) (hinf : 1 ≤ inf) (h : Inv inf st) :
    Inv inf (applyOp inf op st) := by
  cases op with
  | setSelected id anim t => exact set_selected_inv inf st id anim t hinf h
  | control key t => exact signal_control_inv inf st key t hinf h
  | focus indev editing t => exact signal_focus_inv inf st indev editing t hinf h
  | defocus t => exact signal_defocus_inv inf st t hinf h
  | release indev moved tap drag t =>
      exact release_handler_inv inf st indev moved tap drag t hinf h
  | animReady => exact inf_normalize_inv inf st hinf h

theorem roller_ops_preserve_selection_invariant_witness :
    Inv 5 (applyOp 5 (Op.setSelected 7 false 0) exInf4) :=
  roller_ops_preserve_selection_invariant 5 (Op.setSelected 7 false 0) exInf4
    (by decide) (by decide)

/-- C7: in infinite mode the wraparound normalizer is idempotent on the
selection state — running it twice without an intervening selection change
equals running it once (on both `sel_opt_id` and `sel_opt_id_ori`) — and the
normalized id is `(sel_opt_id mod real_id_cnt) + (INF_PAGES/2) * real_id_cnt`
with `real_id_cnt = option_cnt / INF_PAGES`. -/
theorem roller_inf_normalize_idempotent (inf : Nat) (st : State)
    (hm : st.mode = Mode.infinite) (hinf : 1 ≤ inf)
    (hcnt : 1 ≤ st.option_cnt) (hmax : st.option_cnt < 65536)
    (hdvd : inf ∣ st.option_cnt) :
    inf_normalize inf (inf_normalize inf st) = inf_normalize inf st ∧
      (inf_normalize inf st).sel_opt_id =
        st.sel_opt_id % (st.option_cnt / inf) +
          inf / 2 * (st.option_cnt / inf) := by
  have hrpos : 0 < st.option_cnt / inf :=
    Nat.div_pos (Nat.le_of_dvd hcnt hdvd) (by omega)
  have he := inf_normalize_eq inf st hm hinf hcnt hmax hdvd
  have hfix :
      (st.sel_opt_id % (st.option_cnt / inf) + inf / 2 * (st.option_cnt / inf)) %
          (st.option_cnt / inf) =
        st.sel_opt_id % (st.option_cnt / inf) := by
    rw [Nat.add_mul_mod_self_right]
    exact Nat.mod_eq_of_lt (Nat.mod_lt _ hrpos)
  constructor
  · rw [he, inf_normalize_eq inf
        { mode := st.mode, option_cnt := st.option_cnt,
          sel_opt_id :=
            st.sel_opt_id % (st.option_cnt / inf) + inf / 2 * (st.option_cnt / inf),
          sel_opt_id_ori :=
            st.sel_opt_id % (st.option_cnt / inf) + inf / 2 * (st.option_cnt / inf) }
        hm hinf hcnt hmax hdvd]
    dsimp only
    rw [hfix]
  · rw [he]

theorem roller_inf_normalize_idempotent_witness :
    inf_normalize 5 (inf_normalize 5 exInf3) = inf_normalize 5 exInf3 ∧
      (inf_normalize 5 exInf3).sel_opt_id =
        exInf3.sel_opt_id % (exInf3.option_cnt / 5) +
          5 / 2 * (exInf3.option_cnt / 5) :=
  roller_inf_normalize_idempotent 5 exInf3 rfl (by decide) (by decide)
    (by decide) (by decide)

/-- The copy loop of `lv_roller_get_selected_str` with a nonzero buffer size
produces exactly the current line truncated to `buf_size - 1 - c` characters,
where `c` is the starting write index. -/
theorem copy_line_eq (buf_size : Nat) (hbs : buf_size ≠ 0) :
    ∀ (l : List Char) (c : Nat),
      copy_line buf_size l c =
        (l.takeWhile fun ch => ch ≠ '\n').take (buf_size - 1 - c) := by
  intro l
  induction l with
  | nil => intro c; simp [copy_line]
  | cons ch rest ih =>
      intro c
      by_cases hnl : ch = '\n'
      · subst hnl
        simp [copy_line, List.takeWhile_cons]
      · simp only [copy_line, if_neg hnl]
        by_cases hc : c ≥ buf_size - 1
        · rw [if_pos (And.intro hbs hc)]
          have h0 : buf_size - 1 - c = 0 := by omega
          rw [h0, List.take_zero]
        · rw [if_neg fun hand => hc hand.2, ih (c + 1), List.takeWhile_cons,
            if_pos (decide_eq_true hnl)]
          obtain ⟨n, hn⟩ : ∃ n, buf_size - 1 - c = n + 1 :=
            ⟨buf_size - 1 - c - 1, by omega⟩
          rw [hn, List.take_succ_cons]
          have hn' : buf_size - 1 - (c + 1) = n := by omega
          rw [hn']

/-- C8: for every nonzero destination buffer size
`lv_roller_get_selected_str` copies at most `buf_size - 1` bytes of the
selected line (truncating when the line is longer) and writes the
terminating null byte at an index strictly below `buf_size` (equal to the
number of copied bytes). -/
theorem roller_get_selected_str_truncates (opt_txt : List Char)
    (sel buf_size : Nat) (hbs : 0 < buf_size) :
    (get_selected_str opt_txt sel buf_size).1 =
        ((opt_txt.drop (sel_line_start sel opt_txt 0)).takeWhile
            fun ch => ch ≠ '\n').take (buf_size - 1) ∧
      (get_selected_str opt_txt sel buf_size).1.length ≤ buf_size - 1 ∧
      (get_selected_str opt_txt sel buf_size).2 =
        (get_selected_str opt_txt sel buf_size).1.length ∧
      (get_selected_str opt_txt sel buf_size).2 < buf_size := by
  have hc := copy_line_eq buf_size (by omega)
    (opt_txt.drop (sel_line_start sel opt_txt 0)) 0
  unfold get_selected_str
  dsimp only
  rw [Nat.sub_zero] at hc
  refine ⟨hc, ?_, rfl, ?_⟩
  · rw [hc, List.length_take]
    omega
  · rw [hc, List.length_take]
    have := Nat.min_le_left (buf_size - 1)
      ((opt_txt.drop (sel_line_start sel opt_txt 0)).takeWhile
          fun ch => ch ≠ '\n').length
    omega

theorem roller_get_selected_str_truncates_witness :
    (get_selected_str ['A', '\n', 'B', 'C', 'D', '\n', 'E'] 1 3).2 < 3 :=
  (roller_get_selected_str_truncates ['A', '\n', 'B', 'C', 'D', '\n', 'E'] 1 3
    (by decide)).2.2.2

end Roller

namespace Table

theorem list_getD_append (l l' : List α) (d : α) (i : Nat) (h : i < l.length) :
    (l ++ l').getD i d = l.getD i d := by
  rw [List.getD_eq_getElem (l ++ l') d (by rw [List.length_append]; omega),
    List.getElem_append_left h, List.getD_eq_getElem l d h]

theorem list_getD_set_self (l : List α) (i : Nat) (a d : α) (h : i < l.length) :
    (l.set i a).getD i d = a := by
  rw [List.getD_eq_getElem (l.set i a) d (by rw [List.length_set]; omega)]
  exact List.getElem_set_self _

theorem list_getD_set_ne (l : List α) (i j : Nat) (a d : α) (h : i ≠ j) :
    (l.set i a).getD j d = l.getD j d := by
  by_cases hj : j < l.length
  · rw [List.getD_eq_getElem (l.set i a) d (by rw [List.length_set]; omega),
      List.getElem_set_ne h, List.getD_eq_getElem l d hj]
  · rw [List.getD_eq_getElem?_getD, List.getD_eq_getElem?_getD,
      List.getElem?_eq_none (by rw [List.length_set]; omega),
      List.getElem?_eq_none (by omega)]

/-- Row-major flat indices are unique below the column count. -/
theorem rowmajor_inj {r c row col N : Nat} (hc : c < N) (hcol : col < N)
    (h : r * N + c = row * N + col) : r = row ∧ c = col := by
  have hN : 0 < N := by omega
  have h1 : (r * N + c) / N = r := by
    rw [Nat.add_comm, Nat.add_mul_div_right c r hN, Nat.div_eq_of_lt hc,
      Nat.zero_add]
  have h2 : (r * N + c) % N = c := by
    rw [Nat.add_comm, Nat.add_mul_mod_self_right]
    exact Nat.mod_eq_of_lt hc
  have h3 : (row * N + col) / N = row := by
    rw [Nat.add_comm, Nat.add_mul_div_right col row hN, Nat.div_eq_of_lt hcol,
      Nat.zero_add]
  have h4 : (row * N + col) % N = col := by
    rw [Nat.add_comm, Nat.add_mul_mod_self_right]
    exact Nat.mod_eq_of_lt hcol
  constructor
  · rw [← h1, h, h3]
  · rw [← h2, h, h4]

/-- C9: the table read accessors degrade gracefully: any out-of-range row or
column yields the benign defaults (empty string for `lv_table_get_cell_value`,
`false` for `lv_table_get_cell_crop` and `lv_table_get_cell_merge_right`),
and an in-range cell that was never written (no allocated buffer) yields the
same defaults; the getters are pure functions of the table state, so the
table is not modified. -/
theorem table_getters_out_of_range_defaults (t : State) (row col : Nat) :
    (t.row_cnt ≤ row ∨ t.col_cnt ≤ col →
      get_cell_value t row col = "" ∧ get_cell_crop t row col = false ∧
        get_cell_merge_right t row col = false) ∧
    (row < t.row_cnt → col < t.col_cnt →
      cell_at t (row * t.col_cnt + col) = none →
      get_cell_value t row col = "" ∧ get_cell_crop t row col = false ∧
        get_cell_merge_right t row col = false) := by
  constructor
  · intro h
    unfold get_cell_value get_cell_crop get_cell_merge_right
    rw [if_pos h, if_pos h, if_pos h]
    exact ⟨rfl, rfl, rfl⟩
  · intro h1 h2 hnone
    have hrange : ¬(t.row_cnt ≤ row ∨ t.col_cnt ≤ col) := by omega
    unfold get_cell_value get_cell_crop get_cell_merge_right
    rw [if_neg hrange, if_neg hrange, if_neg hrange, hnone]
    exact ⟨rfl, rfl, rfl⟩

theorem table_getters_out_of_range_defaults_witness :
    (get_cell_value exTable2x2 5 0 = "" ∧ get_cell_crop exTable2x2 5 0 = false ∧
        get_cell_merge_right exTable2x2 5 0 = false) ∧
      (get_cell_value exTable2x2 0 1 = "" ∧ get_cell_crop exTable2x2 0 1 = false ∧
        get_cell_merge_right exTable2x2 0 1 = false) :=
  ⟨(table_getters_out_of_range_defaults exTable2x2 5 0).1 (by decide),
    (table_getters_out_of_range_defaults exTable2x2 0 1).2 (by decide) (by decide)
      (by decide)⟩

/-- C3 counterexample: in `get_row_height` a cropped merge-chain head does
NOT consume its chain.  In a 1-by-2 row whose first cell is cropped and
merged right and whose second cell holds tall (100-pixel) text, the code
revisits the second cell as an independent cell and returns 100, while the
claimed skip-always iteration would return the one-line floor 10. -/
theorem table_row_height_crop_merge_double_count :
    get_row_height exEnv exTableCropMerge 0 = 100 ∧
      get_row_height_specSkipAll exEnv exTableCropMerge 0 = 10 := by
  decide

/-- When the cell heading a merge chain has its right-merge bit clear, the
chain loop stops immediately. -/
theorem merge_chain_head_not_merge (t : State) (cell col fuel : Nat) (w : Int)
    (h : ∀ cd : Cell, cell_at t cell = some cd → cd.fmt.right_merge = false) :
    merge_chain t cell col fuel 0 w = (0, w) := by
  cases fuel with
  | zero => rfl
  | succ n =>
      simp only [merge_chain]
      split
      · simp only [Nat.add_zero]
        cases hc : cell_at t cell with
        | none => simp only [hc]
        | some cd => simp only [hc, h cd hc, Bool.false_eq_true, reduceIte]
      · rfl

/-- The row-height loop and its skip-always variant agree whenever no
allocated cell is simultaneously cropped and merged right. -/
theorem row_height_loop_skip_eq (env : Env) (t : State) (row_start : Nat)
    (hnc : ∀ i (cd : Cell), cell_at t i = some cd → cd.fmt.crop = true →
      cd.fmt.right_merge = false) :
    ∀ (fuel cell col : Nat) (h_max : Int),
      row_height_loop env t row_start fuel cell col h_max =
        row_height_loop_specSkipAll env t row_start fuel cell col h_max := by
  intro fuel
  induction fuel with
  | zero => intro cell col h_max; rfl
  | succ n ih =>
      intro cell col h_max
      simp only [row_height_loop, row_height_loop_specSkipAll]
      by_cases hlt : cell < row_start + t.col_cnt
      · rw [if_pos hlt, if_pos hlt]
        cases hc : cell_at t cell with
        | none =>
            simp only [hc]
            exact ih _ _ _
        | some cd =>
            simp only [hc]
            by_cases hcrop : cd.fmt.crop = true
            · have hm0 := merge_chain_head_not_merge t cell col t.col_cnt
                (col_w_at t col)
                (fun cd' hcd' => by
                  rw [hc] at hcd'
                  cases hcd'
                  exact hnc cell cd hc hcrop)
              simp only [hcrop, reduceIte, hm0]
              simp only [Nat.add_zero]
              exact ih _ _ _
            · have hcropf : cd.fmt.crop = false := by
                cases hcb : cd.fmt.crop
                · rfl
                · exact absurd hcb hcrop
              simp only [hcropf, Bool.false_eq_true, reduceIte]
              exact ih _ _ _
      · rw [if_neg hlt, if_neg hlt]

/-- Conversion of the decidable per-buffer form of "no cell is both cropped
and merged" to the per-index form used in the loop equivalence. -/
theorem no_crop_merge_of_mem (t : State)
    (h : ∀ oc ∈ t.cell_data, ∀ cd : Cell, oc = some cd → cd.fmt.crop = true →
      cd.fmt.right_merge = false) :
    ∀ i (cd : Cell), cell_at t i = some cd → cd.fmt.crop = true →
      cd.fmt.right_merge = false := by
  intro i cd hc hcrop
  by_cases hi : i < t.cell_data.length
  · have hmem : t.cell_data.getD i none ∈ t.cell_data := by
      rw [List.getD_eq_getElem _ _ hi]
      exact List.getElem_mem hi
    exact h _ hmem cd hc hcrop
  · unfold cell_at at hc
    rw [List.getD_eq_getElem?_getD, List.getElem?_eq_none (by omega)] at hc
    cases hc

/-- C3 amended: in `get_row_height` the iteration consumes a merge chain as a
single step only when the chain head is NOT cropped (the crop branch advances
by one cell, revisiting trailing chain members); consequently the claimed
no-double-count iteration is correct exactly on rows where no allocated cell
is simultaneously cropped and merged right, in which case the computed row
height coincides with the skip-always semantics. -/
theorem table_row_height_skip_unless_cropped (env : Env) (t : State)
    (row_id : Nat)
    (hnc : ∀ i (cd : Cell), cell_at t i = some cd → cd.fmt.crop = true →
      cd.fmt.right_merge = false) :
    get_row_height env t row_id = get_row_height_specSkipAll env t row_id := by
  unfold get_row_height get_row_height_specSkipAll
  exact row_height_loop_skip_eq env t _ hnc _ _ _ _

theorem table_row_height_skip_unless_cropped_witness :
    get_row_height exEnv exTable2x2 0 = get_row_height_specSkipAll exEnv exTable2x2 0 :=
  table_row_height_skip_unless_cropped exEnv exTable2x2 0
    (no_crop_merge_of_mem exTable2x2 (by decide))

/-- On an in-bounds target `lv_table_set_cell_crop` performs no expansion and
only rewrites the target cell buffer: the crop bit becomes the given value
while the right-merge bit and text are carried over from the existing cell
(or a freshly allocated empty cell). -/
theorem set_cell_crop_inbounds (env : Env) (t : State) (row col : Nat)
    (v : Bool) (hrow : row < t.row_cnt) (hcol : col < t.col_cnt) :
    set_cell_crop env t row col v =
      { t with
        cell_data :=
          t.cell_data.set (row * t.col_cnt + col)
            (some
              { fmt :=
                  { right_merge :=
                      match cell_at t (row * t.col_cnt + col) with
                      | none => false
                      | some cd => cd.fmt.right_merge,
                    crop := v },
                txt :=
                  match cell_at t (row * t.col_cnt + col) with
                  | none => ""
                  | some cd => cd.txt }) } := by
  unfold set_cell_crop
  dsimp only
  rw [if_neg (by omega : ¬ t.col_cnt ≤ col), if_neg (by omega : ¬ t.row_cnt ≤ row)]
  cases hc : cell_at t (row * t.col_cnt + col) <;> simp only [hc]

/-- C10: on an in-bounds target `lv_table_set_cell_crop` changes only the
crop bit of that cell: row/column counts, column widths, every cell's text
and right-merge flag, the crop flag of every other cell, and — because no
size recomputation is triggered, unlike `lv_table_set_cell_merge_right`,
which can change `row_h` — the stored row heights are all unchanged. -/
theorem table_set_cell_crop_frame (env : Env) (t : State) (row col : Nat)
    (v : Bool) (hwf : WF t) (hrow : row < t.row_cnt) (hcol : col < t.col_cnt) :
    (set_cell_crop env t row col v).row_h = t.row_h ∧
      (set_cell_crop env t row col v).row_cnt = t.row_cnt ∧
      (set_cell_crop env t row col v).col_cnt = t.col_cnt ∧
      (set_cell_crop env t row col v).col_w = t.col_w ∧
      (∀ r c, get_cell_value (set_cell_crop env t row col v) r c =
        get_cell_value t r c) ∧
      (∀ r c, get_cell_merge_right (set_cell_crop env t row col v) r c =
        get_cell_merge_right t r c) ∧
      get_cell_crop (set_cell_crop env t row col v) row col = v ∧
      (∀ r c, ¬(r = row ∧ c = col) →
        get_cell_crop (set_cell_crop env t row col v) r c = get_cell_crop t r c) ∧
      (∃ env2 t2 r2 c2,
        (set_cell_merge_right env2 t2 r2 c2 true).row_h ≠ t2.row_h) := by
  obtain ⟨hw1, hw2, hw3⟩ := hwf
  rw [set_cell_crop_inbounds env t row col v hrow hcol]
  have hi0lt : row * t.col_cnt + col < t.cell_data.length := by
    rw [hw3]
    have hstep : (row + 1) * t.col_cnt ≤ t.row_cnt * t.col_cnt :=
      Nat.mul_le_mul_right _ (by omega)
    have harith : row * t.col_cnt + t.col_cnt = (row + 1) * t.col_cnt := by ring
    omega
  refine ⟨rfl, rfl, rfl, rfl, ?_, ?_, ?_, ?_,
    ⟨exEnv, exTableT, 0, 0, by decide⟩⟩
  · intro r c
    unfold get_cell_value
    dsimp only
    by_cases hout : t.row_cnt ≤ r ∨ t.col_cnt ≤ c
    · rw [if_pos hout, if_pos hout]
    · rw [if_neg hout, if_neg hout]
      push_neg at hout
      by_cases heq : r = row ∧ c = col
      · obtain ⟨rfl, rfl⟩ := heq
        unfold cell_at
        dsimp only
        rw [list_getD_set_self _ _ _ _ hi0lt]
      · have hne : row * t.col_cnt + col ≠ r * t.col_cnt + c := by
          intro hcon
          obtain ⟨h1', h2'⟩ := rowmajor_inj hcol hout.2 hcon
          exact heq ⟨h1'.symm, h2'.symm⟩
        unfold cell_at
        dsimp only
        rw [list_getD_set_ne _ _ _ _ _ hne]
  · intro r c
    unfold get_cell_merge_right
    dsimp only
    by_cases hout : t.row_cnt ≤ r ∨ t.col_cnt ≤ c
    · rw [if_pos hout, if_pos hout]
    · rw [if_neg hout, if_neg hout]
      push_neg at hout
      by_cases heq : r = row ∧ c = col
      · obtain ⟨rfl, rfl⟩ := heq
        unfold cell_at
        dsimp only
        rw [list_getD_set_self _ _ _ _ hi0lt]
      · have hne : row * t.col_cnt + col ≠ r * t.col_cnt + c := by
          intro hcon
          obtain ⟨h1', h2'⟩ := rowmajor_inj hcol hout.2 hcon
          exact heq ⟨h1'.symm, h2'.symm⟩
        unfold cell_at
        dsimp only
        rw [list_getD_set_ne _ _ _ _ _ hne]
  · unfold get_cell_crop
    dsimp only
    rw [if_neg (by omega : ¬(t.row_cnt ≤ row ∨ t.col_cnt ≤ col))]
    unfold cell_at
    dsimp only
    rw [list_getD_set_self _ _ _ _ hi0lt]
  · intro r c hne0
    unfold get_cell_crop
    dsimp only
    by_cases hout : t.row_cnt ≤ r ∨ t.col_cnt ≤ c
    · rw [if_pos hout, if_pos hout]
    · rw [if_neg hout, if_neg hout]
      push_neg at hout
      have hne : row * t.col_cnt + col ≠ r * t.col_cnt + c := by
        intro hcon
        obtain ⟨h1', h2'⟩ := rowmajor_inj hcol hout.2 hcon
        exact hne0 ⟨h1'.symm, h2'.symm⟩
      unfold cell_at
      dsimp only
      rw [list_getD_set_ne _ _ _ _ _ hne]

theorem table_set_cell_crop_frame_witness :
    (set_cell_crop exEnv exTable2x2 0 0 true).row_h = exTable2x2.row_h ∧
      (set_cell_crop exEnv exTable2x2 0 0 true).col_w = exTable2x2.col_w ∧
      get_cell_value (set_cell_crop exEnv exTable2x2 0 0 true) 0 0 =
        get_cell_value exTable2x2 0 0 ∧
      get_cell_merge_right (set_cell_crop exEnv exTable2x2 0 0 true) 0 0 =
        get_cell_merge_right exTable2x2 0 0 ∧
      get_cell_crop (set_cell_crop exEnv exTable2x2 0 0 true) 0 0 = true ∧
      get_cell_crop (set_cell_crop exEnv exTable2x2 0 0 true) 1 1 =
        get_cell_crop exTable2x2 1 1 :=
  have h := table_set_cell_crop_frame exEnv exTable2x2 0 0 true (by decide)
    (by decide) (by decide)
  ⟨h.1, h.2.2.2.1, h.2.2.2.2.1 0 0, h.2.2.2.2.2.1 0 0, h.2.2.2.2.2.2.1,
    h.2.2.2.2.2.2.2.1 1 1 (by decide)⟩

theorem list_getD_append_right (l l' : List α) (d : α) (i : Nat)
    (h : l.length ≤ i) : (l ++ l').getD i d = l'.getD (i - l.length) d := by
  rw [List.getD_eq_getElem?_getD, List.getD_eq_getElem?_getD,
    List.getElem?_append_right h]

theorem realloc_list_length (l : List α) (n : Nat) (pad : α) :
    (realloc_list l n pad).length = n := by
  unfold realloc_list
  rw [List.length_append, List.length_take, List.length_replicate]
  omega

theorem build_rows_length (f : Nat → List α) (L : Nat) :
    ∀ n, (∀ i, i < n → (f i).length = L) → (build_rows f n).length = n * L := by
  intro n
  induction n with
  | zero => intro _; simp [build_rows]
  | succ n ih =>
      intro h
      rw [build_rows, List.length_append, ih (fun i hi => h i (by omega)),
        h n (by omega)]
      ring

theorem build_rows_getD (f : Nat → List α) (L : Nat) (d : α) :
    ∀ n r c, (∀ i, i < n → (f i).length = L) → r < n → c < L →
      (build_rows f n).getD (r * L + c) d = (f r).getD c d := by
  intro n
  induction n with
  | zero => intro r c _ hr _; exact (Nat.not_lt_zero r hr).elim
  | succ n ih =>
      intro r c h hr hc
      have hlen : (build_rows f n).length = n * L :=
        build_rows_length f L n (fun i hi => h i (by omega))
      by_cases hrn : r < n
      · rw [build_rows]
        have hmul : (r + 1) * L ≤ n * L := Nat.mul_le_mul_right L hrn
        have harith : r * L + L = (r + 1) * L := by ring
        rw [list_getD_append _ _ _ _ (by rw [hlen]; omega)]
        exact ih r c (fun i hi => h i (by omega)) hrn hc
      · have hrn' : r = n := by omega
        subst hrn'
        rw [build_rows, list_getD_append_right _ _ _ _ (by rw [hlen]; omega),
          hlen]
        have harith : r * L + c - r * L = c := by omega
        rw [harith]

theorem set_row_cnt_row_cnt (env : Env) (t : State) (n : Nat) :
    (set_row_cnt env t n).row_cnt = n := rfl

theorem set_row_cnt_col_cnt (env : Env) (t : State) (n : Nat) :
    (set_row_cnt env t n).col_cnt = t.col_cnt := rfl

theorem set_row_cnt_col_w (env : Env) (t : State) (n : Nat) :
    (set_row_cnt env t n).col_w = t.col_w := rfl

/-- Growing the row count (realloc plus zero-fill of the new tail) keeps
every existing cell buffer in place. -/
theorem set_row_cnt_cell_at_grow (env : Env) (t : State) (n : Nat)
    (hwf : WF t) (hge : t.row_cnt ≤ n) (i : Nat)
    (hi : i < t.row_cnt * t.col_cnt) :
    cell_at (set_row_cnt env t n) i = cell_at t i := by
  obtain ⟨hw1, hw2, hw3⟩ := hwf
  have hmul : t.row_cnt * t.col_cnt ≤ n * t.col_cnt :=
    Nat.mul_le_mul_right _ hge
  unfold set_row_cnt refr_size cell_at
  dsimp only
  by_cases hlt : t.row_cnt < n
  · rw [if_pos hlt]
    unfold realloc_list
    have htk : t.cell_data.take (n * t.col_cnt) = t.cell_data :=
      List.take_of_length_le (by omega)
    rw [htk]
    have htk2 :
        (t.cell_data ++
            List.replicate (n * t.col_cnt - t.cell_data.length)
              (none : Option Cell)).take (t.row_cnt * t.col_cnt) =
          t.cell_data := List.take_left' hw3
    rw [htk2]
    exact list_getD_append _ _ _ _ (by omega)
  · rw [if_neg hlt]
    have hn : n = t.row_cnt := by omega
    subst hn
    unfold realloc_list
    have htk : t.cell_data.take (t.row_cnt * t.col_cnt) = t.cell_data :=
      List.take_of_length_le (by omega)
    rw [htk]
    exact list_getD_append _ _ _ _ (by omega)

theorem set_row_cnt_wf (env : Env) (t : State) (n : Nat) (hwf : WF t) :
    WF (set_row_cnt env t n) := by
  obtain ⟨hw1, hw2, hw3⟩ := hwf
  unfold WF set_row_cnt refr_size
  dsimp only
  refine ⟨hw1, ?_, ?_⟩
  · rw [List.length_map, List.length_range]
  · have hcomm : t.col_cnt * n = n * t.col_cnt := Nat.mul_comm _ _
    split
    · rename_i hlt
      have hmul' : t.row_cnt * t.col_cnt ≤ n * t.col_cnt :=
        Nat.mul_le_mul_right _ (by omega)
      rw [List.length_append, List.length_take, List.length_replicate,
        realloc_list_length]
      omega
    · rw [realloc_list_length]

theorem set_col_cnt_col_cnt (env : Env) (t : State) (n : Nat) :
    (set_col_cnt env t n).col_cnt = n := rfl

theorem set_col_cnt_row_cnt (env : Env) (t : State) (n : Nat) :
    (set_col_cnt env t n).row_cnt = t.row_cnt := rfl

/-- Each row built by the `set_col_cnt` copy loop has exactly the new column
count of entries. -/
theorem set_col_cnt_row_len (t : State) (n : Nat) (hwf : WF t) (r : Nat)
    (hr : r < t.row_cnt) :
    ((t.cell_data.drop (r * t.col_cnt)).take (min t.col_cnt n) ++
        List.replicate (n - min t.col_cnt n) (none : Option Cell)).length = n := by
  obtain ⟨hw1, hw2, hw3⟩ := hwf
  have hmul : (r + 1) * t.col_cnt ≤ t.row_cnt * t.col_cnt :=
    Nat.mul_le_mul_right _ (by omega)
  have harith : r * t.col_cnt + t.col_cnt = (r + 1) * t.col_cnt := by ring
  rw [List.length_append, List.length_take, List.length_replicate,
    List.length_drop]
  omega

theorem set_col_cnt_wf (env : Env) (t : State) (n : Nat) (hwf : WF t) :
    WF (set_col_cnt env t n) := by
  have hcd :
      (set_col_cnt env t n).cell_data.length = t.row_cnt * n := by
    show (build_rows _ t.row_cnt).length = t.row_cnt * n
    exact build_rows_length _ n t.row_cnt
      (fun i hi => set_col_cnt_row_len t n hwf i hi)
  obtain ⟨hw1, hw2, hw3⟩ := hwf
  refine ⟨?_, ?_, ?_⟩
  · show (if t.col_cnt < n then _ else _ : List Int).length = n
    split
    · rename_i hlt
      rw [List.length_append, List.length_take, List.length_replicate,
        realloc_list_length]
      omega
    · exact realloc_list_length t.col_w n 0
  · show ((List.range t.row_cnt).map _).length = t.row_cnt
    rw [List.length_map, List.length_range]
  · exact hcd

/-- The `set_col_cnt` copy loop places every surviving cell at its remapped
row-major position: reading the new grid at `r * new_cnt + c` gives the old
grid at `r * old_cnt + c`. -/
theorem set_col_cnt_cell_at (env : Env) (t : State) (n : Nat) (hwf : WF t)
    (r c : Nat) (hr : r < t.row_cnt) (hc : c < min t.col_cnt n) :
    cell_at (set_col_cnt env t n) (r * n + c) = cell_at t (r * t.col_cnt + c) := by
  obtain ⟨hw1, hw2, hw3⟩ := hwf
  have hmul : (r + 1) * t.col_cnt ≤ t.row_cnt * t.col_cnt :=
    Nat.mul_le_mul_right _ (by omega)
  have harith : r * t.col_cnt + t.col_cnt = (r + 1) * t.col_cnt := by ring
  show (build_rows _ t.row_cnt).getD (r * n + c) none = _
  rw [build_rows_getD _ n (none : Option Cell) t.row_cnt r c
    (fun i hi => set_col_cnt_row_len t n ⟨hw1, hw2, hw3⟩ i hi) hr (by omega)]
  rw [list_getD_append _ _ _ _
    (by rw [List.length_take, List.length_drop]; omega)]
  rw [List.getD_eq_getElem _ _
    (by rw [List.length_take, List.length_drop]; omega)]
  rw [List.getElem_take, List.getElem_drop]
  unfold cell_at
  rw [List.getD_eq_getElem _ _ (by omega)]

/-- C5: growing the column count preserves every previously-set cell at its
remapped position: for every well-formed table and new column count
`n ≥ col_cnt`, each in-range cell's value as read by `get_cell_value` is the
same before and after `lv_table_set_col_cnt`, the surviving buffers having
been copied to their new row-major indices. -/
theorem table_grow_col_cnt_preserves_cells (env : Env) (t : State)
    (n r c : Nat) (hwf : WF t) (hge : t.col_cnt ≤ n) (hr : r < t.row_cnt)
    (hc : c < t.col_cnt) :
    get_cell_value (set_col_cnt env t n) r c = get_cell_value t r c ∧
      cell_at (set_col_cnt env t n) (r * n + c) =
        cell_at t (r * t.col_cnt + c) := by
  have hcat := set_col_cnt_cell_at env t n hwf r c hr (by omega)
  refine ⟨?_, hcat⟩
  unfold get_cell_value
  rw [set_col_cnt_row_cnt, set_col_cnt_col_cnt]
  rw [if_neg (by omega : ¬(t.row_cnt ≤ r ∨ n ≤ c)),
    if_neg (by omega : ¬(t.row_cnt ≤ r ∨ t.col_cnt ≤ c))]
  rw [hcat]

theorem refr_size_row_cnt (env : Env) (t : State) :
    (refr_size env t).row_cnt = t.row_cnt := rfl

theorem refr_size_col_cnt (env : Env) (t : State) :
    (refr_size env t).col_cnt = t.col_cnt := rfl

/-- Writing a cell buffer at an in-bounds row-major index and refreshing the
sizes leaves the new text readable at that position. -/
theorem write_cell_get (env : Env) (t2 : State) (row col : Nat)
    (fmtv : CellFormat) (txt : String) (hwf2 : WF t2) (hr : row < t2.row_cnt)
    (hc : col < t2.col_cnt) :
    get_cell_value
        (refr_size env
          { t2 with
            cell_data :=
              t2.cell_data.set (row * t2.col_cnt + col)
                (some { fmt := fmtv, txt := txt }) })
        row col = txt := by
  obtain ⟨hw1, hw2, hw3⟩ := hwf2
  have hi : row * t2.col_cnt + col < t2.cell_data.length := by
    rw [hw3]
    have hstep : (row + 1) * t2.col_cnt ≤ t2.row_cnt * t2.col_cnt :=
      Nat.mul_le_mul_right _ (by omega)
    have harith : row * t2.col_cnt + t2.col_cnt = (row + 1) * t2.col_cnt := by
      ring
    omega
  unfold get_cell_value refr_size
  dsimp only
  rw [if_neg (by omega : ¬(t2.row_cnt ≤ row ∨ t2.col_cnt ≤ col))]
  unfold cell_at
  dsimp only
  rw [list_getD_set_self _ _ _ _ hi]

/-- C6 counterexample: `lv_table_set_cell_value_fmt` does NOT auto-expand the
column count.  On an empty 1-by-1 table, a formatted write to column 5
returns with the table unchanged (column count still 1, the cell empty),
while the claim predicts a column count of 6 holding the text. -/
theorem table_set_cell_value_fmt_no_col_expand :
    set_cell_value_fmt exEnv exTable1x1 0 5 "x" = exTable1x1 ∧
      (set_cell_value_fmt exEnv exTable1x1 0 5 "x").col_cnt = 1 ∧
      get_cell_value (set_cell_value_fmt exEnv exTable1x1 0 5 "x") 0 5 = "" := by
  refine ⟨rfl, rfl, rfl⟩

/-- C6 amended: `lv_table_set_cell_value` auto-expands the table — the column
check runs before the row check, the column count grows to `col + 1` and the
row count to `row + 1` when out of bounds — after which the cell at
`(row, col)` holds the given text; `lv_table_set_cell_value_fmt`, however,
auto-expands only the row count: when `col` is out of range it warns and
returns with the table unchanged, and only for an in-range column does it
grow the row count and store the formatted text. -/
theorem table_set_cell_value_auto_expand (env : Env) (t : State)
    (row col : Nat) (txt : String) (hwf : WF t) :
    ((set_cell_value env t row col txt).col_cnt = max t.col_cnt (col + 1) ∧
      (set_cell_value env t row col txt).row_cnt = max t.row_cnt (row + 1) ∧
      get_cell_value (set_cell_value env t row col txt) row col = txt) ∧
    (t.col_cnt ≤ col → set_cell_value_fmt env t row col txt = t) ∧
    (col < t.col_cnt →
      (set_cell_value_fmt env t row col txt).col_cnt = t.col_cnt ∧
      (set_cell_value_fmt env t row col txt).row_cnt = max t.row_cnt (row + 1) ∧
      get_cell_value (set_cell_value_fmt env t row col txt) row col = txt) := by
  refine ⟨?_, ?_, ?_⟩
  · unfold set_cell_value
    dsimp only
    by_cases hcc : t.col_cnt ≤ col
    · rw [if_pos hcc]
      have hwf1 : WF (set_col_cnt env t (col + 1)) :=
        set_col_cnt_wf env t (col + 1) hwf
      by_cases hrc : (set_col_cnt env t (col + 1)).row_cnt ≤ row
      · rw [if_pos hrc]
        have hrc' : t.row_cnt ≤ row := by
          rw [set_col_cnt_row_cnt] at hrc
          exact hrc
        refine ⟨?_, ?_, ?_⟩
        · show col + 1 = max t.col_cnt (col + 1)
          omega
        · show row + 1 = max t.row_cnt (row + 1)
          omega
        · exact write_cell_get env _ row col _ txt
            (set_row_cnt_wf env _ (row + 1) hwf1)
            (by rw [set_row_cnt_row_cnt]; omega)
            (by rw [set_row_cnt_col_cnt, set_col_cnt_col_cnt]; omega)
      · rw [if_neg hrc]
        have hrc' : row < t.row_cnt := by
          rw [set_col_cnt_row_cnt] at hrc
          omega
        refine ⟨?_, ?_, ?_⟩
        · show col + 1 = max t.col_cnt (col + 1)
          omega
        · show t.row_cnt = max t.row_cnt (row + 1)
          omega
        · exact write_cell_get env _ row col _ txt hwf1
            (by rw [set_col_cnt_row_cnt]; omega)
            (by rw [set_col_cnt_col_cnt]; omega)
    · rw [if_neg hcc]
      by_cases hrc : t.row_cnt ≤ row
      · rw [if_pos hrc]
        refine ⟨?_, ?_, ?_⟩
        · show t.col_cnt = max t.col_cnt (col + 1)
          omega
        · show row + 1 = max t.row_cnt (row + 1)
          omega
        · exact write_cell_get env _ row col _ txt
            (set_row_cnt_wf env t (row + 1) hwf)
            (by rw [set_row_cnt_row_cnt]; omega)
            (by rw [set_row_cnt_col_cnt]; omega)
      · rw [if_neg hrc]
        refine ⟨?_, ?_, ?_⟩
        · show t.col_cnt = max t.col_cnt (col + 1)
          omega
        · show t.row_cnt = max t.row_cnt (row + 1)
          omega
        · exact write_cell_get env t row col _ txt hwf (by omega) (by omega)
  · intro hcc
    unfold set_cell_value_fmt
    rw [if_pos hcc]
  · intro hcol
    unfold set_cell_value_fmt
    rw [if_neg (by omega : ¬ t.col_cnt ≤ col)]
    dsimp only
    by_cases hrc : t.row_cnt ≤ row
    · rw [if_pos hrc]
      refine ⟨?_, ?_, ?_⟩
      · show t.col_cnt = t.col_cnt
        rfl
      · show row + 1 = max t.row_cnt (row + 1)
        omega
      · exact write_cell_get env _ row col _ txt
          (set_row_cnt_wf env t (row + 1) hwf)
          (by rw [set_row_cnt_row_cnt]; omega)
          (by rw [set_row_cnt_col_cnt]; omega)
    · rw [if_neg hrc]
      refine ⟨?_, ?_, ?_⟩
      · show t.col_cnt = t.col_cnt
        rfl
      · show t.row_cnt = max t.row_cnt (row + 1)
        omega
      · exact write_cell_get env t row col _ txt hwf (by omega) (by omega)

theorem table_set_cell_value_auto_expand_witness :
    (set_cell_value exEnv exTable1x1 2 3 "y").col_cnt =
        max exTable1x1.col_cnt (3 + 1) ∧
      (set_cell_value exEnv exTable1x1 2 3 "y").row_cnt =
        max exTable1x1.row_cnt (2 + 1) ∧
      get_cell_value (set_cell_value exEnv exTable1x1 2 3 "y") 2 3 = "y" ∧
      set_cell_value_fmt exEnv exTable1x1 2 3 "y" = exTable1x1 :=
  have h := table_set_cell_value_auto_expand exEnv exTable1x1 2 3 "y" (by decide)
  ⟨h.1.1, h.1.2.1, h.1.2.2, h.2.1 (by decide)⟩

theorem table_grow_col_cnt_preserves_cells_witness :
    (get_cell_value (set_col_cnt exEnv exTable2x2 4) 1 1 =
        get_cell_value exTable2x2 1 1 ∧
      cell_at (set_col_cnt exEnv exTable2x2 4) (1 * 4 + 1) =
        cell_at exTable2x2 (1 * exTable2x2.col_cnt + 1)) :=
  table_grow_col_cnt_preserves_cells exEnv exTable2x2 4 1 1 (by decide)
    (by decide) (by decide) (by decide)

end Table
